import Mathlib

/-!
Verification of the transcript post-processing and orchestration logic of
`src/app.py` (`run_consultation`): a shallow embedding of the Python string
operations involved (`str.strip`, `str.replace`, substring containment via
`in`), of the heterogeneous chat-message records, of the display-list loop
(lines 70-80), of the backward final-plan scan (lines 83-87), and of the
precondition checks and top-level exception handler (lines 29-32, 91-98).
The external autogen/Gemini exchange (lines 36-69) is abstracted as an
oracle parameter producing either a message list or an exception.
-/

namespace ClinicalApp

/-- ASCII whitespace recognised by Python's `str.strip()`; the transcripts
in the claims are ASCII, so the non-ASCII Unicode space characters Python
also strips are not modelled. -/
def isPySpace (c : Char) : Bool :=
  c == ' ' || c == '\t' || c == '\n' || c == '\r' || c == '\x0b' || c == '\x0c'

/-- Python `str.strip()` on the underlying character list: drop leading and
trailing whitespace. -/
def pyStripList (l : List Char) : List Char :=
  ((l.dropWhile isPySpace).reverse.dropWhile isPySpace).reverse

/-- Python `str.strip()`. -/
def stripStr (s : String) : String :=
  ⟨pyStripList s.data⟩

/-- Does `pre` occur at the very start of `l`? (Python `str.startswith`,
used here only as the building block of substring search.) -/
def startsWith : List Char → List Char → Bool
  | _, [] => true
  | [], _ :: _ => false
  | a :: as, b :: bs => a == b && startsWith as bs

/-- Python `needle in hay` substring containment on character lists. -/
def containsSub : List Char → List Char → Bool
  | [], needle => needle.isEmpty
  | h :: t, needle => startsWith (h :: t) needle || containsSub t needle

/-- Python `needle in hay` on strings. -/
def containsStr (hay needle : String) : Bool :=
  containsSub hay.data needle.data

/-- Fuel-indexed worker for Python `str.replace`: scanning left to right,
each step either copies one character or, at an occurrence of the
non-empty `pat`, emits `rep` and resumes after the occurrence.  Each step
consumes at least one character of `l`, so fuel `l.length` always
suffices; the fuel only makes the recursion structural. -/
def replaceAllFuel : Nat → List Char → List Char → List Char → List Char
  | _, [], _, _ => []
  | 0, l, _, _ => l
  | fuel + 1, h :: t, pat, rep =>
    if pat ≠ [] ∧ startsWith (h :: t) pat = true then
      rep ++ replaceAllFuel fuel ((h :: t).drop pat.length) pat rep
    else
      h :: replaceAllFuel fuel t pat rep

/-- Python `str.replace(pat, rep)` on character lists: replace every
non-overlapping occurrence, scanning left to right and resuming after each
replacement.  (Python's special behaviour for an empty pattern is not
modelled; the only pattern used in the source is the non-empty sentinel
marker.) -/
def replaceAll (l pat rep : List Char) : List Char :=
  replaceAllFuel l.length l pat rep

/-- Python `str.replace(pat, rep)` on strings. -/
def replaceStr (s pat rep : String) : String :=
  ⟨replaceAll s.data pat.data rep.data⟩

/-- One chat message as returned by the external engine: a dict whose
`role`, `name` and `content` keys may each be absent (the source reads
`role` and sometimes `content` with `msg[...]`, which raises `KeyError`
when absent, and `name`/`content` elsewhere with `msg.get(...)`). -/
structure Msg where
  role : Option String
  name : Option String
  content : Option String
deriving DecidableEq

/-- The sentinel marker of `src/app.py` line 85. -/
def marker : String := "--- FINAL PLAN ---"

/-- The case-injection header phrase of `src/app.py` line 73. -/
def scenarioHeader : String := "PATIENT SCENARIO"

/-- The fallback final-plan string of `src/app.py` line 83. -/
def fallbackPlan : String := "Final plan not generated or found in the conversation."

/-- The body of the display loop, `src/app.py` lines 71-80, for one
message.  `none` models a `KeyError` escaping the loop: `msg['role']` on a
record without a `role` key, or `msg['content']` on a `'user'`-role record
without a `content` key.  A `'user'`-role message contributes the
re-labelled scenario pair when its content contains the header, else
nothing (the `continue` on line 75); any other message contributes its
bold-wrapped speaker name (default `'Moderator'`) and stripped content
when the stripped content is non-empty. -/
def formatStep (patient_scenario : String) (msg : Msg) :
    Option (List (String × String)) :=
  match msg.role with
  | none => none
  | some r =>
    if r = "user" then
      match msg.content with
      | none => none
      | some c =>
        if containsStr c scenarioHeader then
          some [("**Patient Scenario Input**", patient_scenario)]
        else
          some []
    else
      let speaker_name := msg.name.getD "Moderator"
      let content := stripStr (msg.content.getD "")
      if content = "" then some []
      else some [("**" ++ speaker_name ++ "**", content)]

/-- The display loop of `src/app.py` lines 70-80 over the whole transcript:
the concatenation of the per-message contributions, `none` as soon as one
message raises. -/
def formatHistory (patient_scenario : String) : List Msg →
    Option (List (String × String))
  | [] => some []
  | m :: ms =>
    match formatStep patient_scenario m, formatHistory patient_scenario ms with
    | some x, some rest => some (x ++ rest)
    | _, _ => none

/-- Does a message satisfy the final-plan condition of `src/app.py` line
85: `msg.get('name') == masoud_name and "--- FINAL PLAN ---" in
msg.get('content', '')`? -/
def isPlanMsg (masoud_name : String) (m : Msg) : Prop :=
  m.name = some masoud_name ∧ containsStr (m.content.getD "") marker = true

instance (masoud_name : String) (m : Msg) :
    Decidable (isPlanMsg masoud_name m) := by
  unfold isPlanMsg; infer_instance

/-- The final-plan text computed on line 86 from a matching message. -/
def planOf (m : Msg) : String :=
  stripStr (replaceStr (m.content.getD "") marker "")

/-- The scan over `reversed(chat_history)` of `src/app.py` lines 84-87:
the first matching message of the given (already reversed) list. -/
def findPlan (masoud_name : String) : List Msg → Option String
  | [] => none
  | m :: ms =>
    if isPlanMsg masoud_name m then some (planOf m)
    else findPlan masoud_name ms

/-- Final-plan extraction, `src/app.py` lines 83-87: the first matching
message from the end of the transcript, or the fallback string. -/
def extractFinalPlan (masoud_name : String) (hist : List Msg) : String :=
  (findPlan masoud_name hist.reverse).getD fallbackPlan

/-- An exception raised by the delegated portion of the `try` block, as
observed by the handler: `str(e)` and `traceback.format_exc()`. -/
structure PyErr where
  text : String
  trace : String

/-- Text preceding `str(e)` in the diagnostic of lines 92-97. -/
def errPre : String := "An error occurred: "

/-- Text between `str(e)` and the traceback in the diagnostic of lines
92-97. -/
def errMid : String :=
  "\n\nCommon issues:\n" ++
  "- Invalid or expired Google API key.\n" ++
  "- Ensure the model name 'gemini-1.5-flash-latest' is correct and you have access.\n" ++
  "- Network connectivity issues.\n\n" ++
  "Traceback:\n"

/-- The diagnostic string assembled by the `except` block, lines 92-97. -/
def errorMessage (e : PyErr) : String :=
  errPre ++ e.text ++ (errMid ++ e.trace)

/-- The message returned for a missing API key, line 30. -/
def apiKeyMissingMsg : String :=
  "**Error: API Key is missing.** Please go to the Settings tab and enter your Google API Key."

/-- The message returned for an empty patient scenario, line 32. -/
def scenarioEmptyMsg : String :=
  "**Error: Patient Scenario is empty.** Please enter the patient details to start."

/-- `run_consultation`, `src/app.py` lines 10-98.  The external exchange —
`genai.configure`, agent construction, `GroupChat`/manager setup and
`initiate_chat` through `groupchat.messages` (lines 36-69) — is abstracted
as the oracle `chat`, applied to `int(max_rounds)` exactly as line 53
passes it; an oracle error is the exception caught by the `except` block.
A `KeyError` escaping the display loop is likewise caught there; its
runtime traceback string is not a pure function of the inputs and is
modelled as the exception text `'KeyError'` with an empty trace (no claim
concerns that branch's diagnostic text). -/
def run_consultation (api_key : String) (max_rounds : Int)
    (patient_scenario : String) (masoud_name : String)
    (chat : Int → Except PyErr (List Msg)) :
    List (String × String) × String :=
  if api_key = "" then
    ([], apiKeyMissingMsg)
  else if stripStr patient_scenario = "" then
    ([], scenarioEmptyMsg)
  else
    match chat max_rounds with
    | .error e => ([], errorMessage e)
    | .ok hist =>
      match formatHistory patient_scenario hist with
      | none => ([], errorMessage ⟨"KeyError", ""⟩)
      | some fh => (fh, extractFinalPlan masoud_name hist)

/-! ## Basic lemmas about the string primitives -/

theorem str_data_append (s t : String) : (s ++ t).data = s.data ++ t.data := rfl

theorem str_append_assoc (a b c : String) : a ++ b ++ c = a ++ (b ++ c) := by
  apply String.ext
  simp [str_data_append, List.append_assoc]

theorem startsWith_append (s r : List Char) : startsWith (s ++ r) s = true := by
  induction s with
  | nil => cases r <;> rfl
  | cons a as ih => simp [startsWith, ih]

theorem containsSub_of_startsWith {l s : List Char}
    (h : startsWith l s = true) : containsSub l s = true := by
  cases l with
  | nil =>
    cases s with
    | nil => rfl
    | cons b bs => simp [startsWith] at h
  | cons x t => simp [containsSub, h]

theorem containsSub_mid (p s q : List Char) :
    containsSub (p ++ (s ++ q)) s = true := by
  induction p with
  | nil =>
    exact containsSub_of_startsWith (startsWith_append s q)
  | cons x p ih => simp [containsSub, ih]

theorem containsStr_mid (p s q : String) : containsStr (p ++ s ++ q) s = true := by
  show containsSub (p ++ s ++ q).data s.data = true
  have : (p ++ s ++ q).data = p.data ++ (s.data ++ q.data) := by
    simp [str_data_append, List.append_assoc]
  rw [this]
  exact containsSub_mid _ _ _

theorem containsStr_append_right (p s : String) : containsStr (p ++ s) s = true := by
  show containsSub (p ++ s).data s.data = true
  have : (p ++ s).data = p.data ++ (s.data ++ []) := by
    simp [str_data_append]
  rw [this]
  exact containsSub_mid _ _ _

/-! ## Unfolding equations for `replaceAll` -/

theorem replaceAllFuel_congr : ∀ (f g : Nat) (l pat rep : List Char),
    l.length ≤ f → l.length ≤ g →
    replaceAllFuel f l pat rep = replaceAllFuel g l pat rep := by
  intro f
  induction f with
  | zero =>
    intro g l pat rep hf _
    have hl : l = [] := List.eq_nil_of_length_eq_zero (Nat.le_zero.mp hf)
    subst hl
    cases g <;> rfl
  | succ f ih =>
    intro g l pat rep hf hg
    cases l with
    | nil => cases g <;> rfl
    | cons x t =>
      cases g with
      | zero => simp at hg
      | succ g =>
        simp only [replaceAllFuel]
        by_cases hc : pat ≠ [] ∧ startsWith (x :: t) pat = true
        · rw [if_pos hc, if_pos hc]
          have hp1 : 1 ≤ pat.length := by
            rcases pat with _ | ⟨p, ps⟩
            · exact absurd rfl hc.1
            · simp
          have hlen : ((x :: t).drop pat.length).length = t.length + 1 - pat.length := by
            simp [List.length_drop]
          simp only [List.length_cons] at hf hg
          congr 1
          exact ih g _ pat rep (by omega) (by omega)
        · rw [if_neg hc, if_neg hc]
          simp only [List.length_cons] at hf hg
          congr 1
          exact ih g t pat rep (by omega) (by omega)

theorem replaceAll_nil (pat rep : List Char) : replaceAll [] pat rep = [] := rfl

theorem replaceAll_cons_neg (x : Char) (t pat rep : List Char)
    (h : startsWith (x :: t) pat = false) :
    replaceAll (x :: t) pat rep = x :: replaceAll t pat rep := by
  unfold replaceAll
  simp only [List.length_cons, replaceAllFuel, h]
  simp

theorem replaceAll_cons_pos (x : Char) (t pat rep : List Char)
    (hpat : pat ≠ []) (h : startsWith (x :: t) pat = true) :
    replaceAll (x :: t) pat rep = rep ++ replaceAll ((x :: t).drop pat.length) pat rep := by
  unfold replaceAll
  simp only [List.length_cons, replaceAllFuel, if_pos (And.intro hpat h)]
  have hp1 : 1 ≤ pat.length := by
    rcases pat with _ | ⟨p, ps⟩
    · exact absurd rfl hpat
    · simp
  have hlen : ((x :: t).drop pat.length).length = t.length + 1 - pat.length := by
    simp [List.length_drop]
  congr 1
  exact replaceAllFuel_congr _ _ _ pat rep (by omega) (by omega)

theorem replaceAll_no_occ (l pat rep : List Char)
    (h : containsSub l pat = false) : replaceAll l pat rep = l := by
  induction l with
  | nil => rfl
  | cons x t ih =>
    simp only [containsSub, Bool.or_eq_false_iff] at h
    rw [replaceAll_cons_neg x t pat rep h.1, ih h.2]

theorem replaceAll_append_free : ∀ (a rest pat rep : List Char),
    (∀ i, i < a.length → startsWith ((a ++ rest).drop i) pat = false) →
    replaceAll (a ++ rest) pat rep = a ++ replaceAll rest pat rep := by
  intro a
  induction a with
  | nil => intro rest pat rep _; simp
  | cons x a ih =>
    intro rest pat rep h
    have h0 : startsWith (x :: (a ++ rest)) pat = false := by
      have := h 0 (by simp)
      simpa using this
    have hih : replaceAll (a ++ rest) pat rep = a ++ replaceAll rest pat rep := by
      apply ih
      intro i hi
      have := h (i + 1) (by simpa using Nat.succ_lt_succ hi)
      simpa [List.drop_succ_cons] using this
    rw [List.cons_append, replaceAll_cons_neg x (a ++ rest) pat rep h0, hih]
    simp

theorem replaceAll_pat_head (pat rest rep : List Char) (hpat : pat ≠ []) :
    replaceAll (pat ++ rest) pat rep = rep ++ replaceAll rest pat rep := by
  rcases pat with _ | ⟨p, ps⟩
  · exact absurd rfl hpat
  · rw [List.cons_append,
      replaceAll_cons_pos p (ps ++ rest) (p :: ps) rep hpat
        (by rw [← List.cons_append]; exact startsWith_append _ _)]
    congr 1
    rw [← List.cons_append, List.drop_left]

/-! ## Lemmas about the final-plan scan -/

theorem findPlan_eq_none (mn : String) (l : List Msg)
    (h : ∀ m ∈ l, ¬ isPlanMsg mn m) : findPlan mn l = none := by
  induction l with
  | nil => rfl
  | cons m ms ih =>
    rw [findPlan, if_neg (h m (List.mem_cons_self m ms))]
    exact ih fun m' hm' => h m' (List.mem_cons_of_mem m hm')

theorem findPlan_append (mn : String) (l r : List Msg)
    (h : ∀ m ∈ l, ¬ isPlanMsg mn m) :
    findPlan mn (l ++ r) = findPlan mn r := by
  induction l with
  | nil => rfl
  | cons m ms ih =>
    rw [List.cons_append, findPlan, if_neg (h m (List.mem_cons_self m ms))]
    exact ih fun m' hm' => h m' (List.mem_cons_of_mem m hm')

theorem findPlan_some_spec (mn : String) : ∀ (l : List Msg) (s : String),
    findPlan mn l = some s → ∃ m ∈ l, isPlanMsg mn m ∧ s = planOf m := by
  intro l
  induction l with
  | nil => intro s hs; exact absurd hs (by simp [findPlan])
  | cons m ms ih =>
    intro s hs
    rw [findPlan] at hs
    by_cases hm : isPlanMsg mn m
    · rw [if_pos hm] at hs
      exact ⟨m, List.mem_cons_self m ms, hm, (Option.some_injective _ hs).symm⟩
    · rw [if_neg hm] at hs
      obtain ⟨m', hm', hp, he⟩ := ih s hs
      exact ⟨m', List.mem_cons_of_mem m hm', hp, he⟩

/-- The backward scan resolved against a decomposition of the transcript:
if `m` matches and nothing after it matches, the extracted plan is `m`'s
content with all marker occurrences removed and then stripped. -/
theorem extract_decomp (mn : String) (pre post : List Msg) (m : Msg)
    (hm : isPlanMsg mn m) (hpost : ∀ m' ∈ post, ¬ isPlanMsg mn m') :
    extractFinalPlan mn (pre ++ m :: post) = planOf m := by
  unfold extractFinalPlan
  have hrev : (pre ++ m :: post).reverse = post.reverse ++ m :: pre.reverse := by
    simp
  rw [hrev, findPlan_append mn post.reverse (m :: pre.reverse)
    (fun m' hm' => hpost m' (List.mem_reverse.mp hm'))]
  rw [findPlan, if_pos hm]
  rfl

/-! ## Lemmas about the display loop -/

theorem formatHistory_append (scen : String) : ∀ (a b : List Msg)
    (fa fb : List (String × String)),
    formatHistory scen a = some fa → formatHistory scen b = some fb →
    formatHistory scen (a ++ b) = some (fa ++ fb) := by
  intro a
  induction a with
  | nil =>
    intro b fa fb ha hb
    rw [formatHistory] at ha
    cases ha
    simpa using hb
  | cons m ms ih =>
    intro b fa fb ha hb
    rw [formatHistory] at ha
    cases hx : formatStep scen m with
    | none => rw [hx] at ha; exact absurd ha (by simp)
    | some x =>
      rw [hx] at ha
      cases hr : formatHistory scen ms with
      | none => rw [hr] at ha; exact absurd ha (by simp)
      | some ra =>
        rw [hr] at ha
        simp only at ha
        cases ha
        rw [List.cons_append, formatHistory, hx, ih b ra fb hr hb]
        simp

theorem formatStep_isSome (scen : String) (m : Msg)
    (hrole : m.role ≠ none) (hcont : m.role = some "user" → m.content ≠ none) :
    (formatStep scen m).isSome = true := by
  unfold formatStep
  cases hr : m.role with
  | none => exact absurd hr hrole
  | some r =>
    by_cases hu : r = "user"
    · subst hu
      cases hc : m.content with
      | none => exact absurd hc (hcont hr)
      | some c =>
        by_cases hh : containsStr c scenarioHeader = true <;> simp [hh]
    · simp only [if_neg hu]
      by_cases he : stripStr (m.content.getD "") = "" <;> simp [he]

theorem formatHistory_isSome (scen : String) : ∀ (hist : List Msg),
    (∀ m ∈ hist, m.role ≠ none ∧ (m.role = some "user" → m.content ≠ none)) →
    (formatHistory scen hist).isSome = true := by
  intro hist
  induction hist with
  | nil => intro _; rfl
  | cons m ms ih =>
    intro h
    have hm := h m (List.mem_cons_self m ms)
    have hstep := formatStep_isSome scen m hm.1 hm.2
    have hrest := ih fun m' hm' => h m' (List.mem_cons_of_mem m hm')
    rw [formatHistory]
    cases hx : formatStep scen m with
    | none => rw [hx] at hstep; simp at hstep
    | some x =>
      cases hr : formatHistory scen ms with
      | none => rw [hr] at hrest; simp at hrest
      | some ra => simp

/-! ## Claim theorems -/

/-- C1: final-plan extraction scans the transcript from the end backward
and returns the content of the first Turn whose speaker equals the
moderator's name and whose content contains the sentinel marker anywhere,
with the marker occurrences removed and surrounding whitespace stripped;
at the Turn `"--- FINAL PLAN ---\nDiagnosis: X"` this yields exactly
`"Diagnosis: X"` (see the witness). -/
theorem final_plan_backward_scan (mn : String) (pre post : List Msg) (m : Msg)
    (hname : m.name = some mn)
    (hmark : containsStr (m.content.getD "") marker = true)
    (hpost : ∀ m' ∈ post, ¬ isPlanMsg mn m') :
    extractFinalPlan mn (pre ++ m :: post) =
      stripStr (replaceStr (m.content.getD "") marker "") :=
  extract_decomp mn pre post m ⟨hname, hmark⟩ hpost

/-- Witness for C1 at the claim's own concrete Turn. -/
theorem final_plan_backward_scan_witness :
    extractFinalPlan "Masoud"
      [⟨some "assistant", some "Masoud", some "--- FINAL PLAN ---\nDiagnosis: X"⟩] =
      "Diagnosis: X" := by
  have h := final_plan_backward_scan "Masoud" [] []
    ⟨some "assistant", some "Masoud", some "--- FINAL PLAN ---\nDiagnosis: X"⟩
    (by decide) (by decide) (by decide)
  exact h.trans (by decide)

/-- C2: when two (or more) moderator Turns contain the marker, the
extraction returns the one closest to the end of the transcript; the
earlier marked Turn is ignored. -/
theorem final_plan_prefers_latest (mn : String) (pre mid post : List Msg)
    (m1 m2 : Msg)
    (_h1 : isPlanMsg mn m1) (h2 : isPlanMsg mn m2)
    (hpost : ∀ m' ∈ post, ¬ isPlanMsg mn m') :
    extractFinalPlan mn (pre ++ m1 :: mid ++ m2 :: post) =
      stripStr (replaceStr (m2.content.getD "") marker "") := by
  have hsplit : pre ++ m1 :: mid ++ m2 :: post = (pre ++ m1 :: mid) ++ m2 :: post := by
    simp
  rw [hsplit]
  exact extract_decomp mn (pre ++ m1 :: mid) post m2 h2 hpost

/-- Witness for C2: two marked moderator Turns, the later one wins. -/
theorem final_plan_prefers_latest_witness :
    extractFinalPlan "Masoud"
      [⟨some "assistant", some "Masoud", some "--- FINAL PLAN ---\nEarly"⟩,
       ⟨some "assistant", some "Masoud", some "--- FINAL PLAN ---\nLate"⟩] =
      "Late" := by
  have h := final_plan_prefers_latest "Masoud" [] [] []
    ⟨some "assistant", some "Masoud", some "--- FINAL PLAN ---\nEarly"⟩
    ⟨some "assistant", some "Masoud", some "--- FINAL PLAN ---\nLate"⟩
    (by decide) (by decide) (by decide)
  exact h.trans (by decide)

/-- C3: when no Turn has both the moderator's name and the marker, the
extraction returns the fixed fallback string verbatim (the run still
succeeds; the fallback is returned in the plan slot, not an error). -/
theorem final_plan_fallback_verbatim (mn : String) (hist : List Msg)
    (h : ∀ m ∈ hist, ¬ isPlanMsg mn m) :
    extractFinalPlan mn hist =
      "Final plan not generated or found in the conversation." := by
  unfold extractFinalPlan
  rw [findPlan_eq_none mn hist.reverse fun m hm => h m (List.mem_reverse.mp hm)]
  rfl

/-- Witness for C3: a transcript with marker-free and differently named
Turns falls back. -/
theorem final_plan_fallback_verbatim_witness :
    extractFinalPlan "Masoud"
      [⟨some "user", some "User_Proxy", some "the case"⟩,
       ⟨some "assistant", some "James", some "--- FINAL PLAN --- by the wrong agent"⟩,
       ⟨some "assistant", some "Masoud", some "no marker here"⟩] =
      "Final plan not generated or found in the conversation." :=
  final_plan_fallback_verbatim "Masoud" _ (by decide)

/-- C10: the extraction removes every (left-to-right, non-overlapping)
occurrence of the marker from the matched Turn's content before stripping,
not only the first one: a content of shape `a ++ marker ++ b ++ marker ++ d`
with no further occurrence starting inside `a`, `b` or `d` extracts to
`strip (a ++ b ++ d)`. -/
theorem marker_all_occurrences_removed (mn : String) (pre post : List Msg)
    (m : Msg) (a b d : List Char)
    (hname : m.name = some mn)
    (hcontent : m.content = some ⟨a ++ marker.data ++ b ++ marker.data ++ d⟩)
    (ha : ∀ i < a.length,
      startsWith ((a ++ marker.data ++ b ++ marker.data ++ d).drop i) marker.data = false)
    (hb : ∀ i < b.length,
      startsWith ((b ++ marker.data ++ d).drop i) marker.data = false)
    (hd : containsSub d marker.data = false)
    (hpost : ∀ m' ∈ post, ¬ isPlanMsg mn m') :
    extractFinalPlan mn (pre ++ m :: post) = stripStr ⟨a ++ b ++ d⟩ := by
  have hML : marker.data ≠ [] := by decide
  have hreassoc : a ++ marker.data ++ b ++ marker.data ++ d
      = a ++ (marker.data ++ (b ++ (marker.data ++ d))) := by simp
  have hcontains : containsStr (m.content.getD "") marker = true := by
    rw [hcontent]
    show containsSub (a ++ marker.data ++ b ++ marker.data ++ d) marker.data = true
    rw [hreassoc]
    exact containsSub_mid _ _ _
  rw [extract_decomp mn pre post m ⟨hname, hcontains⟩ hpost]
  unfold planOf
  rw [hcontent]
  show stripStr ⟨replaceAll (a ++ marker.data ++ b ++ marker.data ++ d) marker.data []⟩
      = stripStr ⟨a ++ b ++ d⟩
  have ha' : ∀ i < a.length,
      startsWith ((a ++ (marker.data ++ (b ++ (marker.data ++ d)))).drop i)
        marker.data = false := by
    intro i hi
    have := ha i hi
    rwa [hreassoc] at this
  have hb' : ∀ i < b.length,
      startsWith ((b ++ (marker.data ++ d)).drop i) marker.data = false := by
    intro i hi
    have := hb i hi
    rwa [show b ++ marker.data ++ d = b ++ (marker.data ++ d) by simp] at this
  have hcalc : replaceAll (a ++ marker.data ++ b ++ marker.data ++ d) marker.data []
      = a ++ (b ++ d) := by
    rw [hreassoc, replaceAll_append_free a _ _ _ ha',
      replaceAll_pat_head _ _ _ hML, List.nil_append,
      replaceAll_append_free b _ _ _ hb',
      replaceAll_pat_head _ _ _ hML, List.nil_append,
      replaceAll_no_occ d _ _ hd]
  rw [hcalc, ← List.append_assoc]

/-- Witness for C10: both marker occurrences in
`"X: --- FINAL PLAN --- y --- FINAL PLAN --- z"` are removed. -/
theorem marker_all_occurrences_removed_witness :
    extractFinalPlan "Masoud"
      [⟨some "assistant", some "Masoud",
        some "X: --- FINAL PLAN --- y --- FINAL PLAN --- z"⟩] = "X:  y  z" := by
  have h := marker_all_occurrences_removed "Masoud" [] []
    ⟨some "assistant", some "Masoud",
      some "X: --- FINAL PLAN --- y --- FINAL PLAN --- z"⟩
    "X: ".data " y ".data " z".data
    (by decide) (by decide) (by decide) (by decide) (by decide) (by decide)
  exact h.trans (by decide)

/-- C4 counterexample: a transcript with two submitter Turns whose content
contains the case-injection header produces TWO `Patient Scenario Input`
pairs, so the display list does not contain exactly one such pair. -/
theorem scenario_pair_not_unique_counterexample :
    ((formatHistory "case"
      [⟨some "user", some "User_Proxy", some "intro PATIENT SCENARIO case"⟩,
       ⟨some "user", some "User_Proxy", some "echo PATIENT SCENARIO case"⟩]).getD
        []).countP (fun p => p.1 == "**Patient Scenario Input**") = 2 := by
  decide

/-- C4 amended: each submitter Turn whose content contains the header
contributes exactly one `Patient Scenario Input` pair carrying the
original untemplated case text, in transcript position; a submitter Turn
without the header contributes nothing. -/
theorem scenario_pair_per_submitter_turn (scen : String) (a b : List Msg)
    (m : Msg) (c : String) (fa fb : List (String × String))
    (ha : formatHistory scen a = some fa) (hb : formatHistory scen b = some fb)
    (hr : m.role = some "user") (hc : m.content = some c) :
    (containsStr c scenarioHeader = true →
      formatHistory scen (a ++ m :: b) =
        some (fa ++ ("**Patient Scenario Input**", scen) :: fb)) ∧
    (containsStr c scenarioHeader = false →
      formatHistory scen (a ++ m :: b) = some (fa ++ fb)) := by
  constructor
  · intro hcon
    have hstep : formatStep scen m = some [("**Patient Scenario Input**", scen)] := by
      simp [formatStep, hr, hc, hcon]
    have hmb : formatHistory scen (m :: b) =
        some (("**Patient Scenario Input**", scen) :: fb) := by
      rw [formatHistory, hstep, hb]
      rfl
    exact formatHistory_append scen a (m :: b) fa _ ha hmb
  · intro hcon
    have hstep : formatStep scen m = some [] := by
      simp [formatStep, hr, hc, hcon]
    have hmb : formatHistory scen (m :: b) = some fb := by
      rw [formatHistory, hstep, hb]
      simp
    exact formatHistory_append scen a (m :: b) fa fb ha hmb

/-- Witness for the amended C4: one header-bearing submitter Turn between
two specialist Turns yields exactly the re-labelled scenario pair in its
position. -/
theorem scenario_pair_per_submitter_turn_witness :
    formatHistory "case"
      [⟨some "assistant", some "James", some "hi"⟩,
       ⟨some "user", some "User_Proxy", some "text PATIENT SCENARIO text"⟩,
       ⟨some "assistant", some "David", some "yo"⟩] =
      some [("**James**", "hi"), ("**Patient Scenario Input**", "case"),
        ("**David**", "yo")] :=
  (scenario_pair_per_submitter_turn "case"
    [⟨some "assistant", some "James", some "hi"⟩]
    [⟨some "assistant", some "David", some "yo"⟩]
    ⟨some "user", some "User_Proxy", some "text PATIENT SCENARIO text"⟩
    "text PATIENT SCENARIO text"
    [("**James**", "hi")] [("**David**", "yo")]
    (by decide) (by decide) (by decide) (by decide)).1 (by decide)

/-- The display contribution of one non-submitter Turn as the claim words
it: a Turn with non-empty trimmed content becomes the pair of its
bold-wrapped speaker-name label (the generic `Moderator` when the name is
absent) and its trimmed content; a Turn with empty or whitespace-only
content contributes nothing.  Written from the claim's wording, to be
compared against the loop of lines 70-80. -/
def specDisplayTurn (m : Msg) : List (String × String) :=
  if stripStr (m.content.getD "") = "" then []
  else [("**" ++ m.name.getD "Moderator" ++ "**", stripStr (m.content.getD ""))]

/-- C5: on a transcript of non-submitter Turns the display list is the
front-to-back concatenation of the per-Turn contributions described by the
claim: non-empty trimmed content surfaces as (speaker label, trimmed
content), blank Turns are dropped, a missing name is labelled
`Moderator`. -/
theorem display_list_single_pass (scen : String) : ∀ (hist : List Msg),
    (∀ m ∈ hist, ∃ r, m.role = some r ∧ r ≠ "user") →
    formatHistory scen hist = some ((hist.map specDisplayTurn).flatten) := by
  intro hist
  induction hist with
  | nil => intro _; rfl
  | cons m ms ih =>
    intro h
    obtain ⟨r, hr, hru⟩ := h m (List.mem_cons_self m ms)
    have hms := ih fun m' hm' => h m' (List.mem_cons_of_mem m hm')
    have hstep : formatStep scen m = some (specDisplayTurn m) := by
      unfold formatStep specDisplayTurn
      rw [hr]
      simp only [if_neg hru]
      by_cases he : stripStr (m.content.getD "") = "" <;> simp [he]
    rw [formatHistory, hstep, hms]
    simp

/-- Witness for C5: whitespace-only content is excluded, a named Turn is
labelled by its name and a nameless Turn by `Moderator`. -/
theorem display_list_single_pass_witness :
    formatHistory "s"
      [⟨some "assistant", some "James", some " hi \n"⟩,
       ⟨some "assistant", some "David", some "  "⟩,
       ⟨some "assistant", none, some "plan"⟩] =
      some [("**James**", "hi"), ("**Moderator**", "plan")] := by
  have h := display_list_single_pass "s"
    [⟨some "assistant", some "James", some " hi \n"⟩,
     ⟨some "assistant", some "David", some "  "⟩,
     ⟨some "assistant", none, some "plan"⟩] (by decide)
  exact h.trans (by decide)

/-- C6 counterexample: a Turn carrying a name and content but no role
field makes the display-loop embedding return `none` — the modelled
`KeyError` of `msg['role']` on line 72 — instead of degrading to an empty
output, refuting the claimed totality on role-less Turns. -/
theorem formatter_missing_role_counterexample :
    formatHistory "s" [⟨none, some "James", some "hello"⟩] = none := by
  decide

/-- C6 amended: final-plan extraction is total on every transcript
(fallback or a matched Turn's processed content), and the display-list
construction is total provided every Turn has a role field and every
submitter Turn has a content field. -/
theorem formatter_totality_amended :
    (∀ scen hist,
      (∀ m ∈ hist, m.role ≠ none ∧ (m.role = some "user" → m.content ≠ none)) →
      (formatHistory scen hist).isSome = true) ∧
    (∀ mn hist, extractFinalPlan mn hist = fallbackPlan ∨
      ∃ m ∈ hist, isPlanMsg mn m ∧ extractFinalPlan mn hist = planOf m) := by
  constructor
  · exact fun scen hist h => formatHistory_isSome scen hist h
  · intro mn hist
    cases hfp : findPlan mn hist.reverse with
    | none =>
      left
      unfold extractFinalPlan
      rw [hfp]
      rfl
    | some s =>
      right
      obtain ⟨m, hm, hp, he⟩ := findPlan_some_spec mn hist.reverse s hfp
      refine ⟨m, List.mem_reverse.mp hm, hp, ?_⟩
      unfold extractFinalPlan
      rw [hfp, he]
      rfl

/-- Witness for the amended C6 at a transcript with all fields present and
at the empty transcript. -/
theorem formatter_totality_amended_witness :
    (formatHistory "s" [⟨some "assistant", some "A", some "hi"⟩]).isSome = true ∧
    (extractFinalPlan "M" ([] : List Msg) = fallbackPlan ∨
      ∃ m ∈ ([] : List Msg), isPlanMsg "M" m ∧
        extractFinalPlan "M" ([] : List Msg) = planOf m) :=
  ⟨formatter_totality_amended.1 "s" [⟨some "assistant", some "A", some "hi"⟩]
     (by decide),
   formatter_totality_amended.2 "M" []⟩

/-- C7: an empty credential, or a blank (empty or whitespace-only) case
description, short-circuits `run_consultation` to an empty display list
and the matching precondition message, for every possible external
exchange — the result does not consult the `chat` oracle, so no external
call is made and nothing is raised. -/
theorem precondition_checks (api_key : String) (max_rounds : Int)
    (patient_scenario masoud_name : String)
    (chat : Int → Except PyErr (List Msg)) :
    (api_key = "" →
      run_consultation api_key max_rounds patient_scenario masoud_name chat =
        ([], apiKeyMissingMsg)) ∧
    (api_key ≠ "" → stripStr patient_scenario = "" →
      run_consultation api_key max_rounds patient_scenario masoud_name chat =
        ([], scenarioEmptyMsg)) := by
  constructor
  · intro hk
    unfold run_consultation
    rw [if_pos hk]
  · intro hk hs
    unfold run_consultation
    rw [if_neg hk, if_pos hs]

/-- Witness for C7: a missing key and a whitespace-only scenario each
yield their precondition message. -/
theorem precondition_checks_witness :
    run_consultation "" 5 "case" "Masoud" (fun _ => Except.ok []) =
      ([], apiKeyMissingMsg) ∧
    run_consultation "key" 5 " \n " "Masoud" (fun _ => Except.ok []) =
      ([], scenarioEmptyMsg) :=
  ⟨(precondition_checks "" 5 "case" "Masoud" (fun _ => Except.ok [])).1 rfl,
   (precondition_checks "key" 5 " \n " "Masoud" (fun _ => Except.ok [])).2
     (by decide) (by decide)⟩

/-- C8: any exception in the delegated portion (configuration, agent
construction, exchange) makes `run_consultation` return an empty display
list and the diagnostic string, which contains the exception's text and
its full stack trace; the oracle is consulted once, with no retry. -/
theorem exception_diagnostic (api_key : String) (max_rounds : Int)
    (patient_scenario masoud_name : String)
    (chat : Int → Except PyErr (List Msg)) (e : PyErr)
    (hk : api_key ≠ "") (hs : stripStr patient_scenario ≠ "")
    (hc : chat max_rounds = Except.error e) :
    run_consultation api_key max_rounds patient_scenario masoud_name chat =
      ([], errorMessage e) ∧
    containsStr (errorMessage e) e.text = true ∧
    containsStr (errorMessage e) e.trace = true := by
  refine ⟨?_, ?_, ?_⟩
  · unfold run_consultation
    rw [if_neg hk, if_neg hs, hc]
  · exact containsStr_mid errPre e.text (errMid ++ e.trace)
  · have hshape : errorMessage e = (errPre ++ e.text ++ errMid) ++ e.trace := by
      unfold errorMessage
      exact (str_append_assoc _ _ _).symm
    rw [hshape]
    exact containsStr_append_right _ _

/-- Witness for C8 at a concrete failing exchange. -/
theorem exception_diagnostic_witness :
    run_consultation "key" 5 "case" "Masoud"
      (fun _ => Except.error ⟨"boom", "trace here"⟩) =
      ([], errorMessage ⟨"boom", "trace here"⟩) ∧
    containsStr (errorMessage ⟨"boom", "trace here"⟩) "boom" = true ∧
    containsStr (errorMessage ⟨"boom", "trace here"⟩) "trace here" = true :=
  exception_diagnostic "key" 5 "case" "Masoud"
    (fun _ => Except.error ⟨"boom", "trace here"⟩) ⟨"boom", "trace here"⟩
    (by decide) (by decide) rfl

/-- C9 counterexample: with the round limit 11, outside the claimed 2-10
range, `run_consultation` proceeds to the normal success path (empty
display list and the fallback plan for an empty exchange) instead of
rejecting the input, so the core performs no range validation. -/
theorem round_limit_not_validated_counterexample :
    run_consultation "key" 11 "case" "Masoud" (fun _ => Except.ok []) =
      ([], fallbackPlan) ∧
    ¬ (2 ≤ (11 : Int) ∧ (11 : Int) ≤ 10) := by
  constructor
  · decide
  · decide

/-- C9 amended: the core performs no validation of the round limit; the
result depends on it only through the value handed to the external engine
on line 53, so any two limits on which the engine behaves alike (for
example 11 and 5) are indistinguishable. -/
theorem round_limit_passthrough (api_key : String) (r r' : Int)
    (patient_scenario masoud_name : String)
    (chat : Int → Except PyErr (List Msg))
    (h : chat r = chat r') :
    run_consultation api_key r patient_scenario masoud_name chat =
      run_consultation api_key r' patient_scenario masoud_name chat := by
  unfold run_consultation
  rw [h]

/-- Witness for the amended C9: rounds 11 and 5 give identical results on
an oracle that ignores the round limit. -/
theorem round_limit_passthrough_witness :
    run_consultation "key" 11 "case" "Masoud" (fun _ => Except.ok []) =
      run_consultation "key" 5 "case" "Masoud" (fun _ => Except.ok []) :=
  round_limit_passthrough "key" 11 5 "case" "Masoud" (fun _ => Except.ok []) rfl

end ClinicalApp
